import Mathlib

/-!
Verification development for the ISAM2 incremental update engine of
robustrobotics/gtsam (`gtsam/nonlinear/ISAM2.h`).

The repository ships only the public header `ISAM2.h`; the implementation
file is not part of the sources.  The data model and the update pipeline are
therefore modelled from the specification (spec.md sections 3, 4, 6, 9) and
from the doc comments of `ISAM2.h`, as a shallow embedding:

* variables are `Nat` keys, values and tangent-space deltas live in a
  one-dimensional value space with composition `+`, modelled in exact
  integer arithmetic (the claims under test are structural and
  threshold-gating properties, needing no fractional constants);
* the linearization point Theta and initialization values are association
  lists `List (Nat × ℤ)`;
* the permuted linear delta store (`Permuted<VectorValues> delta_`) is a
  logical-to-physical index map plus a growable backing store;
* the Bayes/clique tree is a mutual inductive tree of cliques, each with one
  frontal variable, a conditional (constant plus linear terms over the
  separator) and a forest of children;
* the out-of-scope collaborators (nonlinear factor models and the numerical
  elimination primitive) are parameters of the engine: a `FactorOps`
  dictionary giving each factor its keys and nonlinear error, and a
  `reeliminate` function producing the rebuilt clique forest.
-/

set_option linter.unusedVariables false

namespace gtsam

/-- First-match lookup in an association list keyed by `Nat`. -/
def alookup {α : Type} : List (Nat × α) → Nat → Option α
  | [], _ => none
  | (k, v) :: rest, key => if k = key then some v else alookup rest key

/-- Lookup with default `0`, used for Theta and delta association lists. -/
def alookupD (l : List (Nat × ℤ)) (k : Nat) : ℤ :=
  (alookup l k).getD 0

/-- `true` iff the association list has an entry for key `k`. -/
def hasKey {α : Type} (l : List (Nat × α)) (k : Nat) : Bool :=
  (alookup l k).isSome

/-- Replace the value stored at key `k` (every entry with that key). -/
def setVal (l : List (Nat × ℤ)) (k : Nat) (v : ℤ) : List (Nat × ℤ) :=
  l.map (fun kv => (kv.1, if kv.1 = k then v else kv.2))

/-- Per-variable delta magnitude (the one-dimensional vector norm). -/
def magQ (x : ℤ) : ℤ := if x < 0 then -x else x

theorem magQ_nonneg (x : ℤ) : 0 ≤ magQ x := by
  unfold magQ
  split
  · linarith
  · linarith

/-- Modelled from the spec: the permuted Linear Delta Store
(`Permuted<VectorValues> delta_` of `ISAM2.h`, whose implementation is
missing from the sources).  Per spec section 9 it is "a logical-to-physical
index map plus a growable backing store"; `perm` maps a logical variable
index to a physical slot of `store`. -/
structure DeltaStore where
  perm : List (Nat × Nat)
  store : List ℤ
  deriving DecidableEq, Repr

namespace DeltaStore

/-- A logical index has a delta slot iff the permutation maps it. -/
def hasSlot (ds : DeltaStore) (k : Nat) : Bool :=
  (alookup ds.perm k).isSome

/-- Read the delta of logical index `k` through the permutation. -/
def lookup (ds : DeltaStore) (k : Nat) : ℤ :=
  match alookup ds.perm k with
  | some p => ds.store.getD p 0
  | none => 0

/-- Modelled from the spec: growing the store at a variable index's first
appearance creates exactly one zero-valued slot; growing never moves data. -/
def addVar (ds : DeltaStore) (k : Nat) : DeltaStore :=
  if ds.hasSlot k then ds
  else ⟨ds.perm ++ [(k, ds.store.length)], ds.store ++ [0]⟩

/-- Write the delta of logical index `k` through the permutation. -/
def write (ds : DeltaStore) (k : Nat) (v : ℤ) : DeltaStore :=
  match alookup ds.perm k with
  | some p => ⟨ds.perm, ds.store.set p v⟩
  | none => ds

/-- Modelled from the spec: reordering variables is "a pure remapping
operation with no data movement" — only the logical-to-physical map is
rewritten, the backing store stays put. -/
def remap (f : Nat → Nat) (ds : DeltaStore) : DeltaStore :=
  ⟨ds.perm.map (fun kp => (f kp.1, kp.2)), ds.store⟩

/-- Well-formedness: every logical index has at most one slot and every
mapped physical slot is inside the backing store. -/
def WF (ds : DeltaStore) : Prop :=
  (ds.perm.map (·.1)).Nodup ∧ ∀ kp ∈ ds.perm, kp.2 < ds.store.length

end DeltaStore

mutual
/-- Modelled from the spec: the Elimination Tree (Bayes tree) of cliques,
maintained by the missing ISAM2 implementation.  Each clique holds one
frontal variable `key` and its conditional `x_key = d + Σ c_j * x_j` over
separator entries `coeffs`, plus a forest of children. -/
inductive CTree : Type where
  | node (key : Nat) (d : ℤ) (coeffs : List (Nat × ℤ)) (children : CForest)

/-- Modelled from the spec: a forest of clique subtrees. -/
inductive CForest : Type where
  | nil
  | cons (t : CTree) (ts : CForest)
end

/-- Evaluate a clique's conditional given the deltas of its separator. -/
def evalCond (d : ℤ) (coeffs : List (Nat × ℤ)) (env : List (Nat × ℤ)) : ℤ :=
  d + (coeffs.map (fun jc => jc.2 * alookupD env jc.1)).sum

mutual
/-- Modelled from the spec: complete back-substitution from the root
outward, solving every clique's frontal variable (used by
`ISAM2::calculateBestEstimate`, whose implementation is missing).
`env` carries the already-solved ancestor deltas. -/
def fullBacksubT (env : List (Nat × ℤ)) : CTree → List (Nat × ℤ)
  | .node k d cs children =>
      let nv := evalCond d cs env
      (k, nv) :: fullBacksubF ((k, nv) :: env) children

/-- Modelled from the spec: complete back-substitution over a forest. -/
def fullBacksubF (env : List (Nat × ℤ)) : CForest → List (Nat × ℤ)
  | .nil => []
  | .cons t ts => fullBacksubT env t ++ fullBacksubF env ts
end

mutual
/-- Modelled from the spec: the Wildfire Propagator (spec section 4.4; the
implementation behind `ISAM2Params::wildfireThreshold` is missing from the
sources).  Each visited clique's frontal delta is recomputed from its
conditional and the ancestor deltas; if the change against the old delta is
below the threshold, propagation stops along that branch and the
descendants keep their stale deltas. -/
def wildfireT (tau : ℤ) (old : Nat → ℤ) (env : List (Nat × ℤ)) :
    CTree → List (Nat × ℤ)
  | .node k d cs children =>
      let nv := evalCond d cs env
      (k, nv) ::
        (if magQ (nv - old k) < tau then []
         else wildfireF tau old ((k, nv) :: env) children)

/-- Modelled from the spec: wildfire propagation over a forest of cliques. -/
def wildfireF (tau : ℤ) (old : Nat → ℤ) (env : List (Nat × ℤ)) :
    CForest → List (Nat × ℤ)
  | .nil => []
  | .cons t ts => wildfireT tau old env t ++ wildfireF tau old env ts
end

/-- Parameters for the ISAM2 algorithm (`ISAM2Params` of `ISAM2.h`).
Thresholds are modelled in exact arithmetic; the `int relinearizeSkip` is
modelled as `Nat` since it counts calls between relinearization rounds. -/
structure ISAM2Params where
  wildfireThreshold : ℤ
  relinearizeThreshold : ℤ
  relinearizeSkip : Nat
  enableRelinearization : Bool
  evaluateNonlinearError : Bool
  deriving DecidableEq, Repr

/-- The result record returned from `ISAM2::update()` (`ISAM2Result` of
`ISAM2.h`); `boost::optional<double>` becomes `Option ℤ`. -/
structure ISAM2Result where
  errorBefore : Option ℤ
  errorAfter : Option ℤ
  variablesRelinearized : Nat
  variablesReeliminated : Nat
  deriving DecidableEq, Repr

/-- Interface of the out-of-scope nonlinear factor models (spec section 1):
each factor knows the keys it touches and its nonlinear error at a value
assignment.  Factors are otherwise opaque to the engine. -/
structure FactorOps (F : Type) where
  keys : F → List Nat
  err : F → (Nat → ℤ) → ℤ

/-- Modelled from the spec: the persistent state of one ISAM2 engine
instance (the protected fields of class `ISAM2` in `ISAM2.h`, whose
implementation is missing): linearization point `theta`, permuted delta
store `delta`, append-only `nonlinearFactors`, the clique `tree`, the
engine-owned relinearization call counter, the `lastBacksubVariableCount`
instrumentation counter and the parameters. -/
structure EngineState (F : Type) where
  theta : List (Nat × ℤ)
  delta : DeltaStore
  nonlinearFactors : List F
  tree : CForest
  callCount : Nat
  lastBacksubVariableCount : Nat
  params : ISAM2Params

/-- An empty ISAM2 instance with the given parameters. -/
def emptyISAM2 (F : Type) (p : ISAM2Params) : EngineState F :=
  ⟨[], ⟨[], []⟩, [], .nil, 0, 0, p⟩

/-- The keys currently in the system (the keys of Theta). -/
def existingKeys {F : Type} (s : EngineState F) : List Nat :=
  s.theta.map (·.1)

/-- Modelled from the spec: the Relinearization Policy (spec section 4.1;
the implementation behind `ISAM2Params::relinearizeThreshold` and
`relinearizeSkip` is missing from the sources).  On an eligible round
(forced, or call counter divisible by the skip count) with relinearization
enabled, it selects the existing variables whose per-variable delta
magnitude is greater than the threshold (`ISAM2.h` line 50: "Only
relinearize variables whose linear delta magnitude is greater than this
threshold"). -/
def relinCandidates {F : Type} (s : EngineState F) (force : Bool) : List Nat :=
  if s.params.enableRelinearization &&
      (force || s.callCount % s.params.relinearizeSkip == 0) then
    (existingKeys s).filter
      (fun k => decide (s.params.relinearizeThreshold < magQ (s.delta.lookup k)))
  else []

/-- Modelled from the spec: the closure of the relinearization candidates
over shared factors.  Per the doc of `ISAM2Result::variablesRelinearized`
(`ISAM2.h` lines 99-107), variables involved in the same factor as a
variable above the threshold are relinearized as well. -/
def relinClosure {F : Type} (ops : FactorOps F) (cands : List Nat)
    (fs : List F) : List Nat :=
  (cands ++
    (fs.filter (fun f => (ops.keys f).any (fun j => cands.contains j))).flatMap
      ops.keys).dedup

/-- The set of existing variables actually relinearized by one update call:
the factor-closure of the policy's candidates, restricted to variables
already in the system (brand-new variables are linearized fresh, not
relinearized). -/
def markedRelinVars {F : Type} (ops : FactorOps F) (s : EngineState F)
    (nf : List F) (force : Bool) : List Nat :=
  (relinClosure ops (relinCandidates s force) (s.nonlinearFactors ++ nf)).filter
    (fun k => (existingKeys s).contains k)

/-- New-variable keys of one call: keys of the new factors not yet in the
system, together with the keys of the supplied initial values. -/
def newKeysOf {F : Type} (ops : FactorOps F) (s : EngineState F)
    (nf : List F) (nv : List (Nat × ℤ)) : List Nat :=
  (((nf.flatMap ops.keys).filter (fun k => !(hasKey s.theta k))) ++
    nv.map (·.1)).dedup

/-- Variables whose factor keys are missing both from Theta and from the
supplied initial values: a usage precondition violation. -/
def missingInitKeys {F : Type} (ops : FactorOps F) (s : EngineState F)
    (nf : List F) (nv : List (Nat × ℤ)) : List Nat :=
  (nf.flatMap ops.keys).filter
    (fun k => !(hasKey s.theta k) && !(hasKey nv k))

/-- Initial values supplied for variables already in the system: a usage
precondition violation. -/
def clashKeys {F : Type} (s : EngineState F) (nv : List (Nat × ℤ)) : List Nat :=
  (nv.map (·.1)).filter (fun k => hasKey s.theta k)

/-- Total nonlinear error of a factor collection at a value assignment. -/
def graphError {F : Type} (ops : FactorOps F) (fs : List F)
    (a : Nat → ℤ) : ℤ :=
  (fs.map (fun f => ops.err f a)).sum

/-- The estimate assignment of a state: Theta composed with the stored
(possibly incomplete) delta. -/
def estimateFun (theta : List (Nat × ℤ)) (ds : DeltaStore) : Nat → ℤ :=
  fun k => alookupD theta k + ds.lookup k

/-- The assignment used for `ISAM2Result::errorBefore` (`ISAM2.h` lines
75-86): pre-existing variables at their pre-update linearization point
combined with their partial linear delta, new variables at the
initialization points passed into the current call. -/
def mixedAssign {F : Type} (s : EngineState F) (nv : List (Nat × ℤ)) :
    Nat → ℤ :=
  fun k =>
    if hasKey s.theta k then alookupD s.theta k + s.delta.lookup k
    else alookupD nv k

/-- The delta store after the new variables of one call have been given
their fresh zero-valued slots. -/
def deltaGrown {F : Type} (ops : FactorOps F) (s : EngineState F)
    (nf : List F) (nv : List (Nat × ℤ)) : DeltaStore :=
  (newKeysOf ops s nf nv).foldl (fun d k => d.addVar k) s.delta

/-- Modelled from the spec: Theta after one call (spec section 3): new
variables are appended at their initialization values; each relinearized
variable's reference value is composed with its accumulated delta. -/
def thetaAfter {F : Type} (ops : FactorOps F) (s : EngineState F)
    (nf : List F) (nv : List (Nat × ℤ)) (force : Bool) : List (Nat × ℤ) :=
  (markedRelinVars ops s nf force).foldl
    (fun th k => setVal th k (alookupD th k + (deltaGrown ops s nf nv).lookup k))
    (s.theta ++ nv)

/-- Modelled from the spec: the delta store after relinearization — "the
delta for that variable is reset to zero" (spec section 3). -/
def deltaRelin {F : Type} (ops : FactorOps F) (s : EngineState F)
    (nf : List F) (nv : List (Nat × ℤ)) (force : Bool) : DeltaStore :=
  (markedRelinVars ops s nf force).foldl (fun d k => d.write k 0)
    (deltaGrown ops s nf nv)

/-- Modelled from the spec: the affected variables of one call (spec
section 4.2): the relinearized variables, the newly introduced variables,
and the variables touched by brand-new factors.  (The upward ancestor walk
through the clique tree is delegated to the elimination collaborator.) -/
def affectedKeysOf {F : Type} (ops : FactorOps F) (s : EngineState F)
    (nf : List F) (nv : List (Nat × ℤ)) (force : Bool) : List Nat :=
  (markedRelinVars ops s nf force ++ newKeysOf ops s nf nv ++
    nf.flatMap ops.keys).dedup

/-- The clique tree after one call: unchanged if nothing is affected,
otherwise rebuilt by the elimination collaborator over all factors at the
updated linearization point. -/
def treeAfter {F : Type} (ops : FactorOps F)
    (reelim : List F → (Nat → ℤ) → List Nat → CForest)
    (s : EngineState F) (nf : List F) (nv : List (Nat × ℤ)) (force : Bool) :
    CForest :=
  if (affectedKeysOf ops s nf nv force).isEmpty then s.tree
  else
    reelim (s.nonlinearFactors ++ nf)
      (fun k => alookupD (thetaAfter ops s nf nv force) k)
      (affectedKeysOf ops s nf nv force)

/-- The delta updates produced by the wildfire pass of one call (empty when
nothing was affected and no back-substitution runs). -/
def wildfireUps {F : Type} (ops : FactorOps F)
    (reelim : List F → (Nat → ℤ) → List Nat → CForest)
    (s : EngineState F) (nf : List F) (nv : List (Nat × ℤ)) (force : Bool) :
    List (Nat × ℤ) :=
  if (affectedKeysOf ops s nf nv force).isEmpty then []
  else
    wildfireF s.params.wildfireThreshold
      (fun k => (deltaRelin ops s nf nv force).lookup k) []
      (treeAfter ops reelim s nf nv force)

/-- The delta store at the end of one call: the wildfire updates written
over the post-relinearization store. -/
def deltaAfter {F : Type} (ops : FactorOps F)
    (reelim : List F → (Nat → ℤ) → List Nat → CForest)
    (s : EngineState F) (nf : List F) (nv : List (Nat × ℤ)) (force : Bool) :
    DeltaStore :=
  (wildfireUps ops reelim s nf nv force).foldl
    (fun d kv => d.write kv.1 kv.2) (deltaRelin ops s nf nv force)

/-- Modelled from the spec: the body of one successful `ISAM2::update` call
(the top-level state machine of spec section 4.5; the implementation is
missing from the sources).  Steps: add new variables (fresh zero delta
slots), select relinearization candidates, close them over shared factors,
fold the delta of relinearized variables into Theta and reset it, collect
the affected variables (relinearized, new, and touched by new factors),
re-eliminate the affected region through the elimination collaborator
`reelim`, and propagate deltas by wildfire.  Result statistics are
reported per `ISAM2Result`. -/
def updateCore {F : Type} (ops : FactorOps F)
    (reelim : List F → (Nat → ℤ) → List Nat → CForest)
    (s : EngineState F) (nf : List F) (nv : List (Nat × ℤ)) (force : Bool) :
    EngineState F × ISAM2Result :=
  let allF := s.nonlinearFactors ++ nf
  let th2 := thetaAfter ops s nf nv force
  let dA := deltaAfter ops reelim s nf nv force
  let errB := if s.params.evaluateNonlinearError then
      some (graphError ops allF (mixedAssign s nv)) else none
  let errA := if s.params.evaluateNonlinearError then
      some (graphError ops allF (estimateFun th2 dA)) else none
  (⟨th2, dA, allF, treeAfter ops reelim s nf nv force, s.callCount + 1,
     (wildfireUps ops reelim s nf nv force).length, s.params⟩,
   ⟨errB, errA, (markedRelinVars ops s nf force).length,
     (affectedKeysOf ops s nf nv force).length⟩)

/-- Modelled from the spec: `ISAM2::update` (`ISAM2.h` lines 183-202; the
implementation is missing from the sources).  The usage preconditions of
the header are checked first: every variable first introduced by the new
factors must have an initial value, and no initial value may be supplied
for a pre-existing variable; a violation is fatal and aborts before any
state is produced. -/
def update {F : Type} (ops : FactorOps F)
    (reelim : List F → (Nat → ℤ) → List Nat → CForest)
    (s : EngineState F) (nf : List F) (nv : List (Nat × ℤ)) (force : Bool) :
    Except String (EngineState F × ISAM2Result) :=
  if (missingInitKeys ops s nf nv).isEmpty = false then
    .error "missing initial value for a new variable in newFactors"
  else if (clashKeys s nv).isEmpty = false then
    .error "initial value supplied for a variable already in the system"
  else
    .ok (updateCore ops reelim s nf nv force)

/-- `ISAM2::calculateEstimate()` (`ISAM2.h` lines 207-211): the estimate
from the incomplete linear delta computed during the last update — Theta
composed with the stored delta (modelled from the header doc; the
implementation is missing from the sources). -/
def calculateEstimate {F : Type} (s : EngineState F) : List (Nat × ℤ) :=
  s.theta.map (fun kv => (kv.1, kv.2 + s.delta.lookup kv.1))

/-- `ISAM2::calculateBestEstimate()` (`ISAM2.h` lines 228-230): the
estimate using a complete delta computed by a full back-substitution over
the clique tree (modelled from the header doc; the implementation is
missing from the sources). -/
def calculateBestEstimate {F : Type} (s : EngineState F) : List (Nat × ℤ) :=
  s.theta.map
    (fun kv => (kv.1, kv.2 + alookupD (fullBacksubF [] s.tree) kv.1))

/-! ### Association-list lemmas -/

theorem alookup_append {α : Type} (l₁ l₂ : List (Nat × α)) (k : Nat) :
    alookup (l₁ ++ l₂) k = (alookup l₁ k).or (alookup l₂ k) := by
  induction l₁ with
  | nil => simp [alookup]
  | cons kv rest ih =>
      by_cases h : kv.1 = k
      · simp [alookup, h, Option.or]
      · simp [alookup, h, ih]

theorem alookup_eq_none_iff {α : Type} (l : List (Nat × α)) (k : Nat) :
    alookup l k = none ↔ k ∉ l.map (·.1) := by
  induction l with
  | nil => simp [alookup]
  | cons kv rest ih =>
      by_cases h : kv.1 = k
      · simp [alookup, h]
      · rw [alookup, if_neg h, ih]
        simp only [List.map_cons, List.mem_cons, not_or]
        constructor
        · intro hn
          exact ⟨fun hc => h hc.symm, hn⟩
        · intro hn
          exact hn.2

theorem alookup_isSome_iff {α : Type} (l : List (Nat × α)) (k : Nat) :
    (alookup l k).isSome = true ↔ k ∈ l.map (·.1) := by
  constructor
  · intro hs
    by_contra hk
    rw [(alookup_eq_none_iff l k).mpr hk] at hs
    simp at hs
  · intro hk
    cases hl : alookup l k with
    | some v => rfl
    | none => exact absurd hk ((alookup_eq_none_iff l k).mp hl)

theorem alookup_map_val {α β : Type} (g : Nat → α → β) (l : List (Nat × α))
    (k : Nat) :
    alookup (l.map (fun kv => (kv.1, g kv.1 kv.2))) k =
      (alookup l k).map (g k) := by
  induction l with
  | nil => simp [alookup]
  | cons kv rest ih =>
      by_cases h : kv.1 = k
      · subst h; simp [alookup]
      · simp [alookup, h, ih]

theorem alookup_map_inj {α : Type} (f : Nat → Nat)
    (hf : Function.Injective f) (l : List (Nat × α)) (k : Nat) :
    alookup (l.map (fun kp => (f kp.1, kp.2))) (f k) = alookup l k := by
  induction l with
  | nil => simp [alookup]
  | cons kv rest ih =>
      by_cases h : kv.1 = k
      · subst h; simp [alookup]
      · have : ¬ (f kv.1 = f k) := fun hc => h (hf hc)
        simp [alookup, h, this, ih]

/-- Filtering with a stronger predicate never keeps more elements. -/
theorem length_filter_mono {α : Type} (l : List α) (p q : α → Bool)
    (h : ∀ a, q a = true → p a = true) :
    (l.filter q).length ≤ (l.filter p).length := by
  induction l with
  | nil => simp
  | cons a t ih =>
      simp only [List.filter_cons]
      cases hq : q a with
      | true => simp [h a hq, Nat.succ_le_succ ih]
      | false =>
          cases hp : p a with
          | true => exact Nat.le_succ_of_le ih
          | false => exact ih

theorem alookup_mem {α : Type} (l : List (Nat × α)) (k : Nat) (v : α)
    (h : alookup l k = some v) : (k, v) ∈ l := by
  induction l with
  | nil => simp [alookup] at h
  | cons kv rest ih =>
      by_cases hk : kv.1 = k
      · rw [alookup, if_pos hk] at h
        have hv : kv.2 = v := by
          cases h
          rfl
        have : kv = (k, v) := by
          cases kv
          simp_all
        rw [← this]
        exact List.mem_cons_self _ _
      · rw [alookup, if_neg hk] at h
        exact List.mem_cons_of_mem _ (ih h)

/-! ### DeltaStore lemmas -/

namespace DeltaStore

theorem hasSlot_eq_false_iff (ds : DeltaStore) (k : Nat) :
    ds.hasSlot k = false ↔ alookup ds.perm k = none := by
  unfold hasSlot
  cases alookup ds.perm k <;> simp

theorem WF_addVar (ds : DeltaStore) (k : Nat) (h : WF ds) :
    WF (ds.addVar k) := by
  unfold addVar
  by_cases hk : ds.hasSlot k
  · simpa [hk] using h
  · rw [if_neg hk]
    have hnone : alookup ds.perm k = none :=
      (hasSlot_eq_false_iff ds k).mp (Bool.not_eq_true _ ▸ Bool.of_not_eq_true hk)
    have hknot : k ∉ ds.perm.map (·.1) := (alookup_eq_none_iff _ _).mp hnone
    constructor
    · rw [List.map_append]
      refine List.Nodup.append h.1 (List.nodup_singleton _) ?_
      intro a ha hb
      simp only [List.map_cons, List.map_nil, List.mem_singleton] at hb
      subst hb
      exact hknot ha
    · intro kp hkp
      rw [List.length_append]
      rcases List.mem_append.mp hkp with hold | hnew
      · exact Nat.lt_succ_of_lt (h.2 kp hold)
      · simp only [List.mem_singleton] at hnew
        subst hnew
        simp
theorem hasSlot_addVar_self (ds : DeltaStore) (k : Nat) :
    (ds.addVar k).hasSlot k = true := by
  unfold addVar
  by_cases hk : ds.hasSlot k
  · simpa [hk]
  · rw [if_neg hk]
    have hnone : alookup ds.perm k = none :=
      (hasSlot_eq_false_iff ds k).mp (Bool.of_not_eq_true hk)
    unfold hasSlot
    simp [alookup_append, hnone, Option.or, alookup]

theorem lookup_addVar_self (ds : DeltaStore) (k : Nat)
    (h : ds.hasSlot k = false) : (ds.addVar k).lookup k = 0 := by
  have hnone : alookup ds.perm k = none := (hasSlot_eq_false_iff ds k).mp h
  unfold addVar
  rw [if_neg (by simp [h])]
  unfold lookup
  have h2 : alookup [(k, ds.store.length)] k = some ds.store.length := by
    simp [alookup]
  rw [alookup_append, hnone, h2]
  have h3 : (ds.store ++ [0]).getD ds.store.length 0 = 0 := by
    rw [List.getD_append_right _ _ _ _ (Nat.le_refl _)]
    simp
  simpa [Option.or] using h3

theorem lookup_addVar_of_ne (ds : DeltaStore) (k j : Nat) (hwf : WF ds)
    (hjk : j ≠ k) : (ds.addVar k).lookup j = ds.lookup j := by
  unfold addVar
  by_cases hk : ds.hasSlot k
  · simp [hk]
  · rw [if_neg hk]
    unfold lookup
    have hsingle : alookup [(k, ds.store.length)] j = none := by
      simp only [alookup]
      rw [if_neg (fun hc : k = j => hjk hc.symm)]
    rw [alookup_append, hsingle]
    cases hj : alookup ds.perm j with
    | none => simp [Option.or]
    | some p =>
        simp only [Option.or]
        have hp : p < ds.store.length := hwf.2 (j, p) (alookup_mem _ _ _ hj)
        exact List.getD_append _ _ _ _ hp

theorem WF_write (ds : DeltaStore) (k : Nat) (v : ℤ) (h : WF ds) :
    WF (ds.write k v) := by
  unfold write
  cases hk : alookup ds.perm k with
  | none => exact h
  | some p =>
      refine ⟨h.1, ?_⟩
      intro kp hkp
      rw [List.length_set]
      exact h.2 kp hkp

theorem remap_store (f : Nat → Nat) (ds : DeltaStore) :
    (DeltaStore.remap f ds).store = ds.store := rfl

theorem remap_lookup (f : Nat → Nat) (hf : Function.Injective f)
    (ds : DeltaStore) (k : Nat) :
    (DeltaStore.remap f ds).lookup (f k) = ds.lookup k := by
  unfold lookup remap
  rw [alookup_map_inj f hf]

theorem WF_remap (f : Nat → Nat) (hf : Function.Injective f)
    (ds : DeltaStore) (h : WF ds) : WF (DeltaStore.remap f ds) := by
  constructor
  · have : (DeltaStore.remap f ds).perm.map (·.1) =
        (ds.perm.map (·.1)).map f := by
      unfold remap
      simp [Function.comp]
    rw [this]
    exact List.Nodup.map hf h.1
  · intro kp hkp
    unfold remap at hkp
    rcases List.mem_map.mp hkp with ⟨orig, horig, heq⟩
    have : kp.2 = orig.2 := by rw [← heq]
    rw [this]
    exact h.2 orig horig

theorem foldl_WF_pres {α : Type} (step : DeltaStore → α → DeltaStore)
    (hstep : ∀ d a, WF d → WF (step d a)) :
    ∀ (l : List α) (d : DeltaStore), WF d → WF (l.foldl step d) := by
  intro l
  induction l with
  | nil => intro d h; exact h
  | cons a t ih =>
      intro d h
      exact ih (step d a) (hstep d a h)

end DeltaStore

/-! ### Wildfire propagation: full propagation at nonpositive threshold,
and antitonicity of the number of updated variables in the threshold. -/

mutual
theorem wildfireT_full (tau : ℤ) (old : Nat → ℤ) (h : tau ≤ 0) :
    ∀ (env : List (Nat × ℤ)) (t : CTree),
      wildfireT tau old env t = fullBacksubT env t
  | env, .node k d cs children => by
      have hch : ¬ (magQ (evalCond d cs env - old k) < tau) := by
        have := magQ_nonneg (evalCond d cs env - old k)
        linarith
      rw [wildfireT, fullBacksubT]
      simp only [if_neg hch]
      rw [wildfireF_full tau old h]

theorem wildfireF_full (tau : ℤ) (old : Nat → ℤ) (h : tau ≤ 0) :
    ∀ (env : List (Nat × ℤ)) (ts : CForest),
      wildfireF tau old env ts = fullBacksubF env ts
  | _, .nil => rfl
  | env, .cons t ts => by
      rw [wildfireF, fullBacksubF, wildfireT_full tau old h,
        wildfireF_full tau old h]
end

mutual
theorem wildfireT_antitone (t1 t2 : ℤ) (old : Nat → ℤ) (h : t1 ≤ t2) :
    ∀ (env : List (Nat × ℤ)) (t : CTree),
      (wildfireT t2 old env t).length ≤ (wildfireT t1 old env t).length
  | env, .node k d cs children => by
      rw [wildfireT, wildfireT]
      by_cases h1 : magQ (evalCond d cs env - old k) < t1
      · have h2 : magQ (evalCond d cs env - old k) < t2 :=
          lt_of_lt_of_le h1 h
        simp [if_pos h1, if_pos h2]
      · by_cases h2 : magQ (evalCond d cs env - old k) < t2
        · simp only [if_pos h2, if_neg h1, List.length_cons, List.length_nil]
          exact Nat.succ_le_succ (Nat.zero_le _)
        · simp only [if_neg h1, if_neg h2, List.length_cons]
          exact Nat.succ_le_succ
            (wildfireF_antitone t1 t2 old h _ children)

theorem wildfireF_antitone (t1 t2 : ℤ) (old : Nat → ℤ) (h : t1 ≤ t2) :
    ∀ (env : List (Nat × ℤ)) (ts : CForest),
      (wildfireF t2 old env ts).length ≤ (wildfireF t1 old env ts).length
  | _, .nil => Nat.le_refl _
  | env, .cons t ts => by
      rw [wildfireF, wildfireF]
      simp only [List.length_append]
      exact Nat.add_le_add (wildfireT_antitone t1 t2 old h env t)
        (wildfireF_antitone t1 t2 old h env ts)
end

/-! ### Engine-level helper lemmas -/

theorem alookup_setVal (l : List (Nat × ℤ)) (k : Nat) (v : ℤ) (j : Nat) :
    alookup (setVal l k v) j =
      (alookup l j).map (fun b => if j = k then v else b) :=
  alookup_map_val (fun a b => if a = k then v else b) l j

theorem alookup_setVal_ne (l : List (Nat × ℤ)) (k : Nat) (v : ℤ) (j : Nat)
    (hjk : j ≠ k) : alookup (setVal l k v) j = alookup l j := by
  rw [alookup_setVal]
  cases alookup l j <;> simp [hjk]

/-- Keys untouched by the relinearization fold keep their Theta entry. -/
theorem alookup_relin_foldl (d1 : DeltaStore) (marked : List Nat) (j : Nat)
    (hj : j ∉ marked) :
    ∀ th : List (Nat × ℤ),
      alookup
        (marked.foldl
          (fun th k => setVal th k (alookupD th k + d1.lookup k)) th) j =
        alookup th j := by
  induction marked with
  | nil => intro th; rfl
  | cons a t ih =>
      intro th
      have hja : j ≠ a := fun hc => hj (hc ▸ List.mem_cons_self a t)
      have hjt : j ∉ t := fun hc => hj (List.mem_cons_of_mem a hc)
      rw [List.foldl_cons, ih hjt, alookup_setVal_ne _ _ _ _ hja]

/-- With relinearization disabled the policy returns no candidates. -/
theorem relinCandidates_of_disabled {F : Type} (s : EngineState F)
    (force : Bool) (hen : s.params.enableRelinearization = false) :
    relinCandidates s force = [] := by
  simp [relinCandidates, hen]

/-- The factor closure of the empty candidate set is empty. -/
theorem relinClosure_nil {F : Type} (ops : FactorOps F) (fs : List F) :
    relinClosure ops [] fs = [] := by
  unfold relinClosure
  rw [List.filter_eq_nil.mpr (by intro f hf; simp)]
  simp

/-- A successful `update` call is exactly `updateCore` after the usage
precondition checks pass. -/
theorem update_ok_elim {F : Type} (ops : FactorOps F)
    (reelim : List F → (Nat → ℤ) → List Nat → CForest) (s : EngineState F)
    (nf : List F) (nv : List (Nat × ℤ)) (force : Bool)
    (p : EngineState F × ISAM2Result)
    (h : update ops reelim s nf nv force = .ok p) :
    p = updateCore ops reelim s nf nv force := by
  unfold update at h
  by_cases h1 : (missingInitKeys ops s nf nv).isEmpty = false
  · rw [if_pos h1] at h
    exact absurd h (by simp)
  · rw [if_neg h1] at h
    by_cases h2 : (clashKeys s nv).isEmpty = false
    · rw [if_pos h2] at h
      exact absurd h (by simp)
    · rw [if_neg h2] at h
      exact (Except.ok.injEq _ _ ▸ h).symm

/-- Entrywise description of `calculateEstimate`. -/
theorem calculateEstimate_alookup {F : Type} (s : EngineState F) (k : Nat) :
    alookup (calculateEstimate s) k =
      (alookup s.theta k).map (fun v => v + s.delta.lookup k) :=
  alookup_map_val (fun a b => b + s.delta.lookup a) s.theta k

theorem updateCore_theta {F : Type} (ops : FactorOps F)
    (reelim : List F → (Nat → ℤ) → List Nat → CForest) (s : EngineState F)
    (nf : List F) (nv : List (Nat × ℤ)) (force : Bool) :
    (updateCore ops reelim s nf nv force).1.theta =
      thetaAfter ops s nf nv force := rfl

theorem updateCore_delta {F : Type} (ops : FactorOps F)
    (reelim : List F → (Nat → ℤ) → List Nat → CForest) (s : EngineState F)
    (nf : List F) (nv : List (Nat × ℤ)) (force : Bool) :
    (updateCore ops reelim s nf nv force).1.delta =
      deltaAfter ops reelim s nf nv force := rfl

theorem updateCore_factors {F : Type} (ops : FactorOps F)
    (reelim : List F → (Nat → ℤ) → List Nat → CForest) (s : EngineState F)
    (nf : List F) (nv : List (Nat × ℤ)) (force : Bool) :
    (updateCore ops reelim s nf nv force).1.nonlinearFactors =
      s.nonlinearFactors ++ nf := rfl

theorem updateCore_errorBefore {F : Type} (ops : FactorOps F)
    (reelim : List F → (Nat → ℤ) → List Nat → CForest) (s : EngineState F)
    (nf : List F) (nv : List (Nat × ℤ)) (force : Bool) :
    (updateCore ops reelim s nf nv force).2.errorBefore =
      (if s.params.evaluateNonlinearError then
        some (graphError ops (s.nonlinearFactors ++ nf) (mixedAssign s nv))
      else none) := rfl

theorem updateCore_errorAfter {F : Type} (ops : FactorOps F)
    (reelim : List F → (Nat → ℤ) → List Nat → CForest) (s : EngineState F)
    (nf : List F) (nv : List (Nat × ℤ)) (force : Bool) :
    (updateCore ops reelim s nf nv force).2.errorAfter =
      (if s.params.evaluateNonlinearError then
        some (graphError ops (s.nonlinearFactors ++ nf)
          (estimateFun (thetaAfter ops s nf nv force)
            (deltaAfter ops reelim s nf nv force)))
      else none) := rfl

theorem updateCore_relin_count {F : Type} (ops : FactorOps F)
    (reelim : List F → (Nat → ℤ) → List Nat → CForest) (s : EngineState F)
    (nf : List F) (nv : List (Nat × ℤ)) (force : Bool) :
    (updateCore ops reelim s nf nv force).2.variablesRelinearized =
      (markedRelinVars ops s nf force).length := rfl

theorem updateCore_reelim_count {F : Type} (ops : FactorOps F)
    (reelim : List F → (Nat → ℤ) → List Nat → CForest) (s : EngineState F)
    (nf : List F) (nv : List (Nat × ℤ)) (force : Bool) :
    (updateCore ops reelim s nf nv force).2.variablesReeliminated =
      (affectedKeysOf ops s nf nv force).length := rfl

/-- Candidates are always drawn from the existing variables. -/
theorem relinCandidates_subset_existing {F : Type} (s : EngineState F)
    (force : Bool) (k : Nat) (hk : k ∈ relinCandidates s force) :
    k ∈ existingKeys s := by
  unfold relinCandidates at hk
  by_cases hc : (s.params.enableRelinearization &&
      (force || s.callCount % s.params.relinearizeSkip == 0)) = true
  · rw [if_pos hc] at hk
    exact (List.mem_filter.mp hk).1
  · rw [if_neg hc] at hk
    exact absurd hk (List.not_mem_nil k)

/-- Marked relinearization variables are always existing variables. -/
theorem markedRelinVars_subset_existing {F : Type} (ops : FactorOps F)
    (s : EngineState F) (nf : List F) (force : Bool) (k : Nat)
    (hk : k ∈ markedRelinVars ops s nf force) : k ∈ existingKeys s := by
  unfold markedRelinVars at hk
  have := (List.mem_filter.mp hk).2
  exact List.elem_iff.mp this

/-! ### C8: relinearization at nonpositive threshold -/

/-- A concrete engine state: one existing variable with zero delta,
`relinearizeThreshold = 0`, `relinearizeSkip = 1`, relinearization
enabled, on an eligible round. -/
def s8 : EngineState Unit :=
  ⟨[(0, 0)], ⟨[(0, 0)], [0]⟩, [], .nil, 0, 0, ⟨1, 0, 1, true, false⟩⟩

/-- C8 counterexample: with `relinearizeThreshold = 0` on an eligible round
the policy does NOT select every existing variable — the delta-magnitude
test of `ISAM2.h` line 50 is strict ("greater than this threshold"), so a
variable whose delta is exactly zero is not selected. -/
theorem relinearize_all_zero_threshold_ce :
    s8.params.relinearizeThreshold ≤ 0 ∧
    s8.params.enableRelinearization = true ∧
    s8.callCount % s8.params.relinearizeSkip = 0 ∧
    existingKeys s8 = [0] ∧
    relinCandidates s8 false = [] := by
  refine ⟨by decide, rfl, rfl, rfl, ?_⟩
  decide

/-- C8 (amended): if `relinearizeThreshold` is strictly negative, every
existing variable is selected for relinearization on every eligible round
(forced, or call counter divisible by `relinearizeSkip`, with
relinearization enabled). -/
theorem relinearize_all_neg_threshold {F : Type} (s : EngineState F)
    (force : Bool) (ht : s.params.relinearizeThreshold < 0)
    (hen : s.params.enableRelinearization = true)
    (hel : force = true ∨ s.callCount % s.params.relinearizeSkip = 0) :
    relinCandidates s force = existingKeys s := by
  unfold relinCandidates
  have hcond : (s.params.enableRelinearization &&
      (force || s.callCount % s.params.relinearizeSkip == 0)) = true := by
    rcases hel with h | h <;> simp [hen, h]
  rw [if_pos hcond]
  apply List.filter_eq_self.mpr
  intro k hk
  have := magQ_nonneg (s.delta.lookup k)
  simp only [decide_eq_true_eq]
  linarith

/-- A copy of `s8` with a strictly negative relinearization threshold. -/
def s8n : EngineState Unit :=
  ⟨[(0, 0)], ⟨[(0, 0)], [0]⟩, [], .nil, 0, 0, ⟨1, -1, 1, true, false⟩⟩

/-- Witness for the amended C8 theorem at a concrete state. -/
theorem relinearize_all_neg_threshold_w :
    (s8n.params.relinearizeThreshold < 0 ∧
      s8n.params.enableRelinearization = true ∧
      s8n.callCount % s8n.params.relinearizeSkip = 0) ∧
    relinCandidates s8n false = existingKeys s8n :=
  ⟨⟨by decide, rfl, rfl⟩,
    relinearize_all_neg_threshold s8n false (by decide) rfl (Or.inr rfl)⟩

/-! ### C3: relinearizeSkip gating -/

/-- C3: on an update call whose call counter modulo `relinearizeSkip` is
nonzero and whose force flag is false, the relinearization policy returns
the empty candidate set and `variablesRelinearized` is zero; a nonempty
candidate set occurs only on calls where the counter modulo the skip count
is zero or the force flag is set; candidates are always existing variables
(brand-new variables are never delta-exceeding), and a brand-new
variable's linearization point after the call is exactly its supplied
initialization value. -/
theorem relinearize_skip_gating {F : Type} (ops : FactorOps F)
    (reelim : List F → (Nat → ℤ) → List Nat → CForest) (s : EngineState F)
    (nf : List F) (nv : List (Nat × ℤ)) (force : Bool)
    (p : EngineState F × ISAM2Result) (k : Nat) :
    (s.callCount % s.params.relinearizeSkip ≠ 0 → force = false →
      relinCandidates s force = [] ∧
      (update ops reelim s nf nv force = .ok p →
        p.2.variablesRelinearized = 0)) ∧
    (relinCandidates s force ≠ [] →
      force = true ∨ s.callCount % s.params.relinearizeSkip = 0) ∧
    (k ∉ existingKeys s → k ∉ relinCandidates s force) ∧
    (update ops reelim s nf nv force = .ok p → k ∉ existingKeys s →
      alookup p.1.theta k = alookup nv k) := by
  have hcand_empty : s.callCount % s.params.relinearizeSkip ≠ 0 →
      force = false → relinCandidates s force = [] := by
    intro hmod hforce
    have hb : (s.callCount % s.params.relinearizeSkip == 0) = false :=
      beq_eq_false_iff_ne.mpr hmod
    unfold relinCandidates
    rw [hforce, hb]
    simp
  refine ⟨?_, ?_, ?_, ?_⟩
  · intro hmod hforce
    refine ⟨hcand_empty hmod hforce, fun hok => ?_⟩
    have hp := update_ok_elim ops reelim s nf nv force p hok
    rw [hp, updateCore_relin_count]
    rw [markedRelinVars, hcand_empty hmod hforce, relinClosure_nil]
    rfl
  · intro hne
    by_cases hf : force = true
    · exact Or.inl hf
    · right
      by_cases hm : s.callCount % s.params.relinearizeSkip = 0
      · exact hm
      · have hforce : force = false := by
          revert hf
          cases force <;> simp
        exact absurd (hcand_empty hm hforce) hne
  · intro hk hmem
    exact hk (relinCandidates_subset_existing s force k hmem)
  · intro hok hk
    have hp := update_ok_elim ops reelim s nf nv force p hok
    rw [hp, updateCore_theta]
    have hkm : k ∉ markedRelinVars ops s nf force := fun hmem =>
      hk (markedRelinVars_subset_existing ops s nf force k hmem)
    rw [thetaAfter, alookup_relin_foldl _ _ _ hkm, alookup_append]
    have hnone : alookup s.theta k = none :=
      (alookup_eq_none_iff _ _).mpr (by simpa [existingKeys] using hk)
    rw [hnone, Option.none_or]

/-- Trivial factor operations over `Unit` factors. -/
def opsU : FactorOps Unit := ⟨fun _ => [], fun _ _ => 0⟩

/-- Trivial elimination collaborator producing an empty forest. -/
def reelimU : List Unit → (Nat → ℤ) → List Nat → CForest :=
  fun _ _ _ => .nil

/-- A concrete state on an ineligible round: call counter 1,
`relinearizeSkip = 2`. -/
def s3 : EngineState Unit :=
  ⟨[(0, 0)], ⟨[(0, 0)], [3]⟩, [], .nil, 1, 0, ⟨0, 1, 2, true, false⟩⟩

/-- Witness for the skip-gating theorem at a concrete ineligible call that
also introduces a brand-new variable with initialization value `7`. -/
theorem relinearize_skip_gating_w :
    (s3.callCount % s3.params.relinearizeSkip ≠ 0 ∧ (5 : Nat) ∉ existingKeys s3 ∧
      update opsU reelimU s3 [] [(5, 7)] false =
        .ok (updateCore opsU reelimU s3 [] [(5, 7)] false)) ∧
    relinCandidates s3 false = [] ∧
    (updateCore opsU reelimU s3 [] [(5, 7)] false).2.variablesRelinearized = 0 ∧
    alookup (updateCore opsU reelimU s3 [] [(5, 7)] false).1.theta 5 =
      alookup [(5, 7)] 5 := by
  have h := relinearize_skip_gating opsU reelimU s3 [] [(5, 7)] false
    (updateCore opsU reelimU s3 [] [(5, 7)] false) 5
  have hok : update opsU reelimU s3 [] [(5, 7)] false =
      .ok (updateCore opsU reelimU s3 [] [(5, 7)] false) := rfl
  have h1 := h.1 (by decide) rfl
  exact ⟨⟨by decide, by decide, hok⟩, h1.1, h1.2 hok,
    h.2.2.2 hok (by decide)⟩

/-! ### C9: relinearization count includes factor mates -/

/-- C9: the set underlying `variablesRelinearized` contains, besides the
delta-exceeding candidates, every existing variable that shares a factor
with a candidate; `variablesRelinearized` is the size of that closed set. -/
theorem relin_count_includes_factor_mates {F : Type} (ops : FactorOps F)
    (reelim : List F → (Nat → ℤ) → List Nat → CForest) (s : EngineState F)
    (nf : List F) (nv : List (Nat × ℤ)) (force : Bool)
    (p : EngineState F × ISAM2Result) (f : F) (k j : Nat) :
    (f ∈ s.nonlinearFactors ++ nf → j ∈ ops.keys f →
      j ∈ relinCandidates s force → k ∈ ops.keys f → k ∈ existingKeys s →
      k ∈ markedRelinVars ops s nf force) ∧
    (update ops reelim s nf nv force = .ok p →
      p.2.variablesRelinearized = (markedRelinVars ops s nf force).length) := by
  constructor
  · intro hf hj hjc hk hke
    unfold markedRelinVars
    refine List.mem_filter.mpr ⟨?_, List.elem_iff.mpr hke⟩
    unfold relinClosure
    rw [List.mem_dedup]
    refine List.mem_append.mpr (Or.inr ?_)
    refine List.mem_flatMap.mpr ⟨f, ?_, hk⟩
    refine List.mem_filter.mpr ⟨hf, ?_⟩
    exact List.any_eq_true.mpr ⟨j, hj, List.elem_iff.mpr hjc⟩
  · intro hok
    rw [update_ok_elim ops reelim s nf nv force p hok, updateCore_relin_count]

/-- Factor operations where a factor is its own key list. -/
def ops9 : FactorOps (List Nat × ℤ) := ⟨fun f => f.1, fun _ _ => 0⟩

/-- Trivial elimination collaborator for `ops9` factors. -/
def reelim9 : List (List Nat × ℤ) → (Nat → ℤ) → List Nat → CForest :=
  fun _ _ _ => .nil

/-- A concrete state: variable 0 has delta 3 (above the threshold 1),
variable 1 has delta 0, and a binary factor couples them. -/
def s9 : EngineState (List Nat × ℤ) :=
  ⟨[(0, 0), (1, 0)], ⟨[(0, 0), (1, 1)], [3, 0]⟩, [([0, 1], 0)], .nil, 0, 0,
    ⟨0, 1, 1, true, false⟩⟩

/-- Witness: variable 1 is below the threshold but shares the binary factor
with variable 0, so it is counted among the relinearized variables. -/
theorem relin_count_includes_factor_mates_w :
    (([0, 1], (0 : ℤ)) ∈ s9.nonlinearFactors ++ [] ∧
      (0 : Nat) ∈ relinCandidates s9 false ∧
      (1 : Nat) ∈ existingKeys s9 ∧
      update ops9 reelim9 s9 [] [] false =
        .ok (updateCore ops9 reelim9 s9 [] [] false)) ∧
    (1 : Nat) ∈ markedRelinVars ops9 s9 [] false ∧
    (updateCore ops9 reelim9 s9 [] [] false).2.variablesRelinearized =
      (markedRelinVars ops9 s9 [] false).length := by
  have h := relin_count_includes_factor_mates ops9 reelim9 s9 [] [] false
    (updateCore ops9 reelim9 s9 [] [] false) ([0, 1], 0) 1 0
  have hok : update ops9 reelim9 s9 [] [] false =
      .ok (updateCore ops9 reelim9 s9 [] [] false) := rfl
  exact ⟨⟨by decide, by decide, by decide, hok⟩,
    h.1 (by decide) (by decide) (by decide) (by decide) (by decide),
    h.2 hok⟩

/-! ### C6: threshold monotonicity -/

/-- C6 (amended): threshold monotonicity holds per step, from the same
pre-call state: raising `relinearizeThreshold` never enlarges the
relinearization candidate set selected from a fixed delta state, and
raising `wildfireThreshold` never lets the wildfire pass update more
variables over a fixed rebuilt tree and prior delta. -/
theorem threshold_monotonic_single_step {F : Type} (s : EngineState F)
    (force : Bool) (t1 t2 : ℤ) (old : Nat → ℤ) (env : List (Nat × ℤ))
    (ts : CForest) (h : t1 ≤ t2) :
    ((relinCandidates
        { s with params := { s.params with relinearizeThreshold := t2 } }
        force).length ≤
      (relinCandidates
        { s with params := { s.params with relinearizeThreshold := t1 } }
        force).length) ∧
    ((wildfireF t2 old env ts).length ≤ (wildfireF t1 old env ts).length) := by
  constructor
  · unfold relinCandidates
    by_cases hc : (s.params.enableRelinearization &&
        (force || s.callCount % s.params.relinearizeSkip == 0)) = true
    · simp only [hc, if_pos]
      exact length_filter_mono _ _ _
        (fun a ha => by
          simp only [decide_eq_true_eq] at ha ⊢
          exact lt_of_le_of_lt h ha)
    · simp only [hc, if_neg, Bool.false_eq_true, not_false_iff]
      simp [if_neg hc]
  · exact wildfireF_antitone t1 t2 old h env ts

/-- Witness for per-step threshold monotonicity at thresholds 1 ≤ 2, the
state `s9`, and a two-clique chain. -/
theorem threshold_monotonic_single_step_w :
    ((1 : ℤ) ≤ 2) ∧
    ((relinCandidates
        { s9 with params := { s9.params with relinearizeThreshold := 2 } }
        false).length ≤
      (relinCandidates
        { s9 with params := { s9.params with relinearizeThreshold := 1 } }
        false).length) ∧
    ((wildfireF 2 (fun _ => 0) []
        (.cons (.node 0 1 [] (.cons (.node 1 5 [] .nil) .nil)) .nil)).length ≤
      (wildfireF 1 (fun _ => 0) []
        (.cons (.node 0 1 [] (.cons (.node 1 5 [] .nil) .nil)) .nil)).length) := by
  have h := threshold_monotonic_single_step s9 false 1 2 (fun _ => 0) []
    (.cons (.node 0 1 [] (.cons (.node 1 5 [] .nil) .nil)) .nil) (by norm_num)
  exact ⟨by norm_num, h.1, h.2⟩

/-- Unary prior factors on variable 0: a factor `(w, t)` has error
`w * (x0 - t)^2`. -/
def ops0 : FactorOps (ℤ × ℤ) :=
  ⟨fun _ => [0], fun wt a => wt.1 * (a 0 - wt.2) ^ 2⟩

/-- The weighted mean of a collection of unary priors: the exact minimizer
of their total quadratic error (the concrete runs below keep the division
exact). -/
def wmean (fs : List (ℤ × ℤ)) : ℤ :=
  (fs.map (fun wt => wt.1 * wt.2)).sum / (fs.map (·.1)).sum

/-- Elimination collaborator for the single-variable unary-prior problem:
one root clique whose conditional sets the delta of variable 0 to the
least-squares optimum relative to the current linearization point. -/
def reelim0 : List (ℤ × ℤ) → (Nat → ℤ) → List Nat → CForest :=
  fun fs th _ => .cons (.node 0 (wmean fs - th 0) [] .nil) .nil

/-- Parameters with `relinearizeSkip = 1` (every round eligible),
wildfire threshold 0, and the given relinearization threshold. -/
def mkParams (tr : ℤ) : ISAM2Params := ⟨0, tr, 1, true, false⟩

/-- Three sequential update calls on the unary-prior problem: call 1 adds
variable 0 with a prior pulling it to 3, call 2 adds a prior moving the
optimum to 5, call 3 adds nothing. -/
def run3 (tr : ℤ) : Except String (EngineState (ℤ × ℤ) × ISAM2Result) := do
  let p1 ← update ops0 reelim0 (emptyISAM2 _ (mkParams tr)) [(1, 3)]
    [(0, 0)] false
  let p2 ← update ops0 reelim0 p1.1 [(1, 7)] [] false
  update ops0 reelim0 p2.1 [] [] false

/-- C6 counterexample: for the same three-call input sequence, the engine
with the LARGER relinearization threshold 4 relinearizes one variable on
call 3 while the engine with the smaller threshold 2 relinearizes none —
with the smaller threshold the delta was already folded into Theta on call
2, while the larger threshold let it accumulate past 4.  So increasing
`relinearizeThreshold` can increase `variablesRelinearized`. -/
theorem relinearize_threshold_monotonicity_ce :
    ((2 : ℤ) ≤ 4) ∧
    (run3 2).map (fun p => p.2.variablesRelinearized) = .ok 0 ∧
    (run3 4).map (fun p => p.2.variablesRelinearized) = .ok 1 := by
  refine ⟨by norm_num, ?_, ?_⟩ <;> rfl

/-! ### C5: calculateEstimate versus complete back-substitution -/

/-- A concrete state in which the stored delta is stale below a wildfire
stop: the clique tree solves variable 0 to 1 and variable 1 to 5, but the
stored delta for variable 1 is still 3 — exactly the store a wildfire pass
with threshold 2 leaves behind (the root's change 1 is below 2, so the
child is never visited). -/
def sce : EngineState Unit :=
  ⟨[(0, 0), (1, 0)], ⟨[(0, 0), (1, 1)], [1, 3]⟩, [],
    .cons (.node 0 1 [] (.cons (.node 1 5 [] .nil) .nil)) .nil, 3, 1,
    ⟨2, 1, 10, true, false⟩⟩

/-- C5 counterexample: `calculateEstimate()` does NOT return Theta composed
with the complete back-substitution delta — it uses the stored, incomplete
delta of the last update (stale below the wildfire threshold), which is
`calculateBestEstimate`'s job (`ISAM2.h` lines 207-211 vs 228-230). -/
theorem calculateEstimate_not_full_backsub_ce :
    calculateEstimate sce ≠ calculateBestEstimate sce ∧
    wildfireF 2 (fun k => alookupD [(0, 0), (1, 3)] k) [] sce.tree =
      [(0, 1)] ∧
    calculateEstimate sce = [(0, 1), (1, 3)] ∧
    calculateBestEstimate sce = [(0, 1), (1, 5)] := by
  refine ⟨by decide, rfl, rfl, rfl⟩

/-- C5 (amended): `calculateEstimate()` composes Theta with the stored,
possibly incomplete delta of the last update; the complete
back-substitution estimate is `calculateBestEstimate()`.  A wildfire pass
with nonpositive threshold propagates fully (it equals complete
back-substitution), and whenever the stored delta agrees with the complete
back-substitution delta the two estimates coincide. -/
theorem calculateEstimate_incomplete_delta_spec {F : Type}
    (s : EngineState F) (k : Nat) (tau : ℤ) (old : Nat → ℤ) :
    (alookup (calculateEstimate s) k =
      (alookup s.theta k).map (fun v => v + s.delta.lookup k)) ∧
    (tau ≤ 0 → wildfireF tau old [] s.tree = fullBacksubF [] s.tree) ∧
    ((∀ j, s.delta.lookup j = alookupD (fullBacksubF [] s.tree) j) →
      calculateEstimate s = calculateBestEstimate s) := by
  refine ⟨calculateEstimate_alookup s k,
    fun h => wildfireF_full tau old h [] s.tree, fun h => ?_⟩
  unfold calculateEstimate calculateBestEstimate
  apply List.map_congr_left
  intro kv hkv
  rw [h kv.1]

/-- A copy of `sce` whose stored delta agrees with the complete
back-substitution delta. -/
def sfull : EngineState Unit :=
  ⟨[(0, 0), (1, 0)], ⟨[(0, 0), (1, 1)], [1, 5]⟩, [],
    .cons (.node 0 1 [] (.cons (.node 1 5 [] .nil) .nil)) .nil, 3, 1,
    ⟨2, 1, 10, true, false⟩⟩

/-- Witness for the amended C5 theorem at `sfull`, threshold -1. -/
theorem calculateEstimate_incomplete_delta_spec_w :
    ((-1 : ℤ) ≤ 0 ∧
      (∀ j, sfull.delta.lookup j = alookupD (fullBacksubF [] sfull.tree) j)) ∧
    alookup (calculateEstimate sfull) 1 =
      (alookup sfull.theta 1).map (fun v => v + sfull.delta.lookup 1) ∧
    wildfireF (-1) (fun _ => 0) [] sfull.tree = fullBacksubF [] sfull.tree ∧
    calculateEstimate sfull = calculateBestEstimate sfull := by
  have hall : ∀ j, sfull.delta.lookup j =
      alookupD (fullBacksubF [] sfull.tree) j := by
    intro j
    match j with
    | 0 => rfl
    | 1 => rfl
    | (n + 2) => rfl
  have h := calculateEstimate_incomplete_delta_spec sfull 1 (-1) (fun _ => 0)
  exact ⟨⟨by norm_num, hall⟩, h.1, h.2.1 (by norm_num), h.2.2 hall⟩

/-! ### C2: no-op updates -/

/-- C2: an update call with empty new factors and empty new values, with
relinearization disabled, succeeds, leaves Theta and the Delta store
unchanged, and reports zero relinearized and zero re-eliminated
variables. -/
theorem noop_update_theta_delta_unchanged {F : Type} (ops : FactorOps F)
    (reelim : List F → (Nat → ℤ) → List Nat → CForest) (s : EngineState F)
    (force : Bool) (p : EngineState F × ISAM2Result)
    (hen : s.params.enableRelinearization = false) :
    (∃ q, update ops reelim s [] [] force = .ok q) ∧
    (update ops reelim s [] [] force = .ok p →
      p.1.theta = s.theta ∧ p.1.delta = s.delta ∧
      p.2.variablesRelinearized = 0 ∧ p.2.variablesReeliminated = 0) := by
  have hm : markedRelinVars ops s [] force = [] := by
    rw [markedRelinVars, relinCandidates_of_disabled s force hen,
      relinClosure_nil]
    rfl
  have hnk : newKeysOf ops s [] [] = [] := by
    simp [newKeysOf]
  have haff : affectedKeysOf ops s [] [] force = [] := by
    rw [affectedKeysOf, hm, hnk]
    simp
  refine ⟨⟨updateCore ops reelim s [] [] force, rfl⟩, fun hok => ?_⟩
  rw [update_ok_elim ops reelim s [] [] force p hok]
  refine ⟨?_, ?_, ?_, ?_⟩
  · rw [updateCore_theta, thetaAfter, hm]
    simp
  · rw [updateCore_delta, deltaAfter, wildfireUps, haff]
    simp only [List.isEmpty_nil, if_pos]
    rw [List.foldl_nil, deltaRelin, hm, List.foldl_nil, deltaGrown, hnk,
      List.foldl_nil]
  · rw [updateCore_relin_count, hm]
    rfl
  · rw [updateCore_reelim_count, haff]
    rfl

/-- A concrete state with relinearization disabled and a nonzero delta. -/
def s2w : EngineState Unit :=
  ⟨[(0, 5)], ⟨[(0, 0)], [2]⟩, [], .nil, 4, 0, ⟨0, 1, 2, false, false⟩⟩

/-- Witness for the no-op update theorem at `s2w` with `force = true`. -/
theorem noop_update_theta_delta_unchanged_w :
    (s2w.params.enableRelinearization = false ∧
      update opsU reelimU s2w [] [] true =
        .ok (updateCore opsU reelimU s2w [] [] true)) ∧
    (updateCore opsU reelimU s2w [] [] true).1.theta = s2w.theta ∧
    (updateCore opsU reelimU s2w [] [] true).1.delta = s2w.delta ∧
    (updateCore opsU reelimU s2w [] [] true).2.variablesRelinearized = 0 ∧
    (updateCore opsU reelimU s2w [] [] true).2.variablesReeliminated = 0 := by
  have hok : update opsU reelimU s2w [] [] true =
      .ok (updateCore opsU reelimU s2w [] [] true) := rfl
  have h := noop_update_theta_delta_unchanged opsU reelimU s2w true
    (updateCore opsU reelimU s2w [] [] true) rfl
  obtain ⟨h1, h2, h3, h4⟩ := h.2 hok
  exact ⟨⟨rfl, hok⟩, h1, h2, h3, h4⟩

/-! ### C4: usage precondition violations -/

/-- C4: `update` fails exactly when the initial-value contract is violated:
some variable of a new factor has neither a linearization point nor a
supplied initial value, or an initial value is supplied for a variable
already in the system.  On failure no successor state is produced. -/
theorem update_error_iff_precondition_violation {F : Type} (ops : FactorOps F)
    (reelim : List F → (Nat → ℤ) → List Nat → CForest) (s : EngineState F)
    (nf : List F) (nv : List (Nat × ℤ)) (force : Bool) :
    (∃ e, update ops reelim s nf nv force = .error e) ↔
      ((∃ f ∈ nf, ∃ k ∈ ops.keys f,
          hasKey s.theta k = false ∧ hasKey nv k = false) ∨
       (∃ k ∈ nv.map (·.1), hasKey s.theta k = true)) := by
  constructor
  · rintro ⟨e, he⟩
    unfold update at he
    by_cases h1 : (missingInitKeys ops s nf nv).isEmpty = false
    · left
      have hne : missingInitKeys ops s nf nv ≠ [] := by
        intro hc
        rw [hc] at h1
        simp at h1
      obtain ⟨k, hk⟩ := List.exists_mem_of_ne_nil _ hne
      unfold missingInitKeys at hk
      obtain ⟨hkf, hkp⟩ := List.mem_filter.mp hk
      obtain ⟨f, hf, hkf2⟩ := List.mem_flatMap.mp hkf
      obtain ⟨ha, hb⟩ := (Bool.and_eq_true _ _).mp hkp
      exact ⟨f, hf, k, hkf2, by simpa using ha, by simpa using hb⟩
    · rw [if_neg h1] at he
      by_cases h2 : (clashKeys s nv).isEmpty = false
      · right
        have hne : clashKeys s nv ≠ [] := by
          intro hc
          rw [hc] at h2
          simp at h2
        obtain ⟨k, hk⟩ := List.exists_mem_of_ne_nil _ hne
        unfold clashKeys at hk
        obtain ⟨hkm, hkp⟩ := List.mem_filter.mp hk
        exact ⟨k, hkm, hkp⟩
      · rw [if_neg h2] at he
        exact absurd he (by simp)
  · intro h
    unfold update
    by_cases h1 : (missingInitKeys ops s nf nv).isEmpty = false
    · rw [if_pos h1]
      exact ⟨_, rfl⟩
    · rw [if_neg h1]
      rcases h with ⟨f, hf, k, hk, hth, hnv⟩ | ⟨k, hk, hth⟩
      · exfalso
        have hmem : k ∈ missingInitKeys ops s nf nv :=
          List.mem_filter.mpr ⟨List.mem_flatMap.mpr ⟨f, hf, hk⟩, by
            rw [hth, hnv]
            rfl⟩
        have : missingInitKeys ops s nf nv = [] := by
          revert h1
          cases missingInitKeys ops s nf nv <;> simp
        rw [this] at hmem
        exact absurd hmem (List.not_mem_nil k)
      · have hmem : k ∈ clashKeys s nv :=
          List.mem_filter.mpr ⟨hk, hth⟩
        have h2 : (clashKeys s nv).isEmpty = false := by
          revert hmem
          cases clashKeys s nv <;> simp
        rw [if_pos h2]
        exact ⟨_, rfl⟩

/-- Witness: supplying an initial value for the pre-existing variable 0
makes `update` fail. -/
theorem update_error_iff_precondition_violation_w :
    ((0 : Nat) ∈ ([((0 : Nat), (1 : ℤ))].map (·.1)) ∧
      hasKey s3.theta 0 = true) ∧
    (∃ e, update opsU reelimU s3 [] [(0, 1)] false = .error e) := by
  have h := (update_error_iff_precondition_violation opsU reelimU s3 []
    [(0, 1)] false).mpr (Or.inr ⟨0, by decide, by decide⟩)
  exact ⟨⟨by decide, by decide⟩, h⟩

/-! ### C7: the delta-store invariant -/

/-- C7: the Delta store invariant across updates: adding a variable at its
first appearance creates exactly one slot, holding zero until first
written; adds and writes preserve well-formedness and do not disturb other
variables; reordering through an injective relabelling changes only the
logical-to-physical permutation (the backing store is untouched and every
logical index still resolves to its value); and every successful `update`
call preserves well-formedness of the engine's delta store. -/
theorem delta_slot_invariant {F : Type} (ops : FactorOps F)
    (reelim : List F → (Nat → ℤ) → List Nat → CForest) (s : EngineState F)
    (nf : List F) (nv : List (Nat × ℤ)) (force : Bool)
    (p : EngineState F × ISAM2Result) (ds : DeltaStore) (k j : Nat) (v : ℤ)
    (f : Nat → Nat) :
    (DeltaStore.WF ds →
      DeltaStore.WF (ds.addVar k) ∧ DeltaStore.WF (ds.write k v)) ∧
    (ds.hasSlot k = false →
      (ds.addVar k).hasSlot k = true ∧ (ds.addVar k).lookup k = 0) ∧
    (DeltaStore.WF ds → j ≠ k → (ds.addVar k).lookup j = ds.lookup j) ∧
    (Function.Injective f →
      (DeltaStore.remap f ds).store = ds.store ∧
      (DeltaStore.remap f ds).lookup (f k) = ds.lookup k ∧
      (DeltaStore.WF ds → DeltaStore.WF (DeltaStore.remap f ds))) ∧
    (DeltaStore.WF s.delta → update ops reelim s nf nv force = .ok p →
      DeltaStore.WF p.1.delta) := by
  refine ⟨fun h => ⟨DeltaStore.WF_addVar ds k h, DeltaStore.WF_write ds k v h⟩,
    fun h => ⟨DeltaStore.hasSlot_addVar_self ds k,
      DeltaStore.lookup_addVar_self ds k h⟩,
    fun h hjk => DeltaStore.lookup_addVar_of_ne ds k j h hjk,
    fun hf => ⟨DeltaStore.remap_store f ds,
      DeltaStore.remap_lookup f hf ds k,
      fun h => DeltaStore.WF_remap f hf ds h⟩,
    fun hwf hok => ?_⟩
  rw [update_ok_elim ops reelim s nf nv force p hok, updateCore_delta,
    deltaAfter]
  refine DeltaStore.foldl_WF_pres _
    (fun d kv hd => DeltaStore.WF_write d kv.1 kv.2 hd) _ _ ?_
  rw [deltaRelin]
  refine DeltaStore.foldl_WF_pres _
    (fun d a hd => DeltaStore.WF_write d a 0 hd) _ _ ?_
  rw [deltaGrown]
  exact DeltaStore.foldl_WF_pres _
    (fun d a hd => DeltaStore.WF_addVar d a hd) _ _ hwf

/-- A concrete store for the delta-slot invariant witness. -/
def ds0 : DeltaStore := ⟨[(0, 0)], [3]⟩

/-- Witness for the delta-store invariant at `ds0`, the successor
relabelling, and the concrete `s9` update. -/
theorem delta_slot_invariant_w :
    (DeltaStore.WF ds0 ∧ ds0.hasSlot 5 = false ∧ DeltaStore.WF s9.delta ∧
      update ops9 reelim9 s9 [] [] false =
        .ok (updateCore ops9 reelim9 s9 [] [] false)) ∧
    DeltaStore.WF (ds0.addVar 5) ∧
    (ds0.addVar 5).lookup 5 = 0 ∧
    (ds0.addVar 5).lookup 0 = ds0.lookup 0 ∧
    (DeltaStore.remap Nat.succ ds0).lookup (Nat.succ 5) = ds0.lookup 5 ∧
    DeltaStore.WF (updateCore ops9 reelim9 s9 [] [] false).1.delta := by
  have h := delta_slot_invariant ops9 reelim9 s9 [] [] false
    (updateCore ops9 reelim9 s9 [] [] false) ds0 5 0 3 Nat.succ
  have hok : update ops9 reelim9 s9 [] [] false =
      .ok (updateCore ops9 reelim9 s9 [] [] false) := rfl
  have hwf0 : DeltaStore.WF ds0 := ⟨by decide, by decide⟩
  have hwf9 : DeltaStore.WF s9.delta := ⟨by decide, by decide⟩
  exact ⟨⟨hwf0, by decide, hwf9, hok⟩,
    (h.1 hwf0).1,
    (h.2.1 (by decide)).2,
    h.2.2.1 hwf0 (by decide),
    (h.2.2.2.1 Nat.succ_injective).2.1,
    h.2.2.2.2 hwf9 hok⟩

/-! ### C10: pre/post nonlinear error semantics -/

/-- C10: when `evaluateNonlinearError` is false both error fields are
absent; when it is true, `errorBefore` is the error of all factors
(including the new ones) at the pre-update linearization points combined
with the partial deltas (new variables at their supplied initialization
values), and `errorAfter` is the error of all factors at the post-update
state's Theta-plus-partial-delta assignment — the same composition
`calculateEstimate` reports for every key of the post-update state. -/
theorem nonlinear_error_semantics {F : Type} (ops : FactorOps F)
    (reelim : List F → (Nat → ℤ) → List Nat → CForest) (s : EngineState F)
    (nf : List F) (nv : List (Nat × ℤ)) (force : Bool)
    (p : EngineState F × ISAM2Result)
    (hok : update ops reelim s nf nv force = .ok p) :
    (s.params.evaluateNonlinearError = false →
      p.2.errorBefore = none ∧ p.2.errorAfter = none) ∧
    (s.params.evaluateNonlinearError = true →
      p.2.errorBefore =
        some (graphError ops (s.nonlinearFactors ++ nf) (mixedAssign s nv)) ∧
      p.2.errorAfter =
        some (graphError ops p.1.nonlinearFactors
          (estimateFun p.1.theta p.1.delta))) ∧
    (∀ k, hasKey p.1.theta k = true →
      alookup (calculateEstimate p.1) k =
        some (estimateFun p.1.theta p.1.delta k)) := by
  have hp := update_ok_elim ops reelim s nf nv force p hok
  subst hp
  refine ⟨fun hev => ?_, fun hev => ?_, fun k hk => ?_⟩
  · rw [updateCore_errorBefore, updateCore_errorAfter, hev]
    simp
  · rw [updateCore_errorBefore, updateCore_errorAfter, hev,
      updateCore_factors, updateCore_theta, updateCore_delta]
    simp
  · rw [calculateEstimate_alookup]
    cases hl : alookup (updateCore ops reelim s nf nv force).1.theta k with
    | none =>
        rw [hasKey, hl] at hk
        simp at hk
    | some v =>
        simp [estimateFun, alookupD, hl]

/-- An empty engine with `evaluateNonlinearError = true`. -/
def s10 : EngineState (ℤ × ℤ) := emptyISAM2 _ ⟨0, 1, 1, true, true⟩

/-- Witness: one call adding variable 0 with prior `x0 = 2` reports
`errorBefore = 4` (at the initialization value 0) and `errorAfter = 0`
(after the delta solve moves the estimate to 2). -/
theorem nonlinear_error_semantics_w :
    (s10.params.evaluateNonlinearError = true ∧
      update ops0 reelim0 s10 [(1, 2)] [(0, 0)] false =
        .ok (updateCore ops0 reelim0 s10 [(1, 2)] [(0, 0)] false)) ∧
    (updateCore ops0 reelim0 s10 [(1, 2)] [(0, 0)] false).2.errorBefore =
      some 4 ∧
    (updateCore ops0 reelim0 s10 [(1, 2)] [(0, 0)] false).2.errorAfter =
      some 0 ∧
    alookup
      (calculateEstimate (updateCore ops0 reelim0 s10 [(1, 2)]
        [(0, 0)] false).1) 0 =
      some (estimateFun
        (updateCore ops0 reelim0 s10 [(1, 2)] [(0, 0)] false).1.theta
        (updateCore ops0 reelim0 s10 [(1, 2)] [(0, 0)] false).1.delta 0) := by
  have hok : update ops0 reelim0 s10 [(1, 2)] [(0, 0)] false =
      .ok (updateCore ops0 reelim0 s10 [(1, 2)] [(0, 0)] false) := rfl
  have h := nonlinear_error_semantics ops0 reelim0 s10 [(1, 2)] [(0, 0)]
    false (updateCore ops0 reelim0 s10 [(1, 2)] [(0, 0)] false) hok
  obtain ⟨hb, ha⟩ := h.2.1 rfl
  exact ⟨⟨rfl, hok⟩, hb.trans (by decide), ha.trans (by decide),
    h.2.2 0 (by decide)⟩

end gtsam
